import Mathlib

/-!
# Swimming results app: time normalization and aggregation, verified

A shallow embedding of the core logic of `swimming_results_app.py`:

* `parse_time_to_seconds` / `format_time` — conversion between raw time
  strings and numeric seconds (`DQ`/`NT`/invalid handled as null);
* the swimmer-name, and date-range filters from `main`;
* the aggregates: best performance, summary statistics and the
  per-event-type comparison table.

Modelling conventions:

* pandas cells read with `dtype=str` are `Option String` (`none` = `NaN`);
* Python `float` values are idealized as `ℚ` (exact rationals).  Python's
  binary64 arithmetic introduces only sub-`1e-10` deviations at the scale
  of race times, far below the 0.01 s tolerances discussed here;
* `float(...)` / `int(...)` literal parsing is modelled for finite decimal
  literals with optional sign, fraction and exponent.  The `inf`/`nan`
  spellings and PEP-515 underscore separators have no `ℚ` counterpart and
  do not occur in time data, so they are outside the model;
* Python `str.strip`/`upper`/`lower` act on the ASCII data appearing here,
  where they agree with `Char.isWhitespace`/`Char.toUpper`/`Char.toLower`;
* `Meet_Date` timestamps are modelled as `Option ℤ` (ordinal days, with
  `none` for `NaT`); only their total order matters to the code.
-/

namespace Swim

/-! ## Python string primitives -/

/-- `str.strip()` on the underlying character list: drop whitespace from
both ends. -/
def stripChars (cs : List Char) : List Char :=
  ((cs.dropWhile Char.isWhitespace).reverse.dropWhile Char.isWhitespace).reverse

/-- `str.strip()`. -/
def pyStrip (s : String) : String := String.mk (stripChars s.data)

/-- `str.upper()` (ASCII; all characters reaching it here are ASCII). -/
def pyUpper (s : String) : String := String.mk (s.data.map Char.toUpper)

/-- `str.lower()` (ASCII). -/
def pyLower (s : String) : String := String.mk (s.data.map Char.toLower)

/-- Python's `c in s` membership test for a single character. -/
def strContains (s : String) (c : Char) : Bool := s.data.any (fun d => d = c)

/-- `s.split(sep, 1)` for a string known to contain `sep`: the pieces
before and after the first occurrence. -/
def splitFirst (sep : Char) : List Char → List Char × List Char
  | [] => ([], [])
  | c :: rest =>
    if c = sep then ([], rest)
    else
      let p := splitFirst sep rest
      (c :: p.1, p.2)

/-! ## Numeric literal parsing (`int(...)`, `float(...)`) -/

/-- Numeric value of a decimal digit character. -/
def digitVal (c : Char) : ℕ := c.toNat - 48

/-- Value of a big-endian list of decimal digit characters. -/
def digitsVal (ds : List Char) : ℕ := ds.foldl (fun a c => a * 10 + digitVal c) 0

/-- Consume an optional leading sign, returning the sign and the rest. -/
def readSign : List Char → ℤ × List Char
  | [] => (1, [])
  | c :: rest =>
    if c = '-' then (-1, rest)
    else if c = '+' then (1, rest)
    else (1, c :: rest)

/-- `int(s)`: optional surrounding whitespace, optional sign, then a
non-empty run of decimal digits. -/
def pyIntChars (cs : List Char) : Option ℤ :=
  if (readSign (stripChars cs)).2 ≠ [] ∧ (readSign (stripChars cs)).2.all Char.isDigit
  then some ((readSign (stripChars cs)).1 * digitsVal (readSign (stripChars cs)).2)
  else none

/-- Integer power of ten over `ℚ`, with negative exponents. -/
def pow10 (e : ℤ) : ℚ :=
  if 0 ≤ e then ((10 : ℚ) ^ e.toNat) else 1 / (10 : ℚ) ^ (-e).toNat

/-- Apply an optional `e`/`E` exponent suffix to a mantissa value; any
other trailing characters make the literal invalid. -/
def expSuffix (m : ℚ) : List Char → Option ℚ
  | [] => some m
  | c :: rest =>
    if c = 'e' ∨ c = 'E' then
      let p := readSign rest
      if p.2 ≠ [] ∧ p.2.all Char.isDigit then some (m * pow10 (p.1 * digitsVal p.2))
      else none
    else none

/-- The mantissa (and exponent) of a float literal, after the sign:
digits with an optional point (at least one digit overall), then an
optional signed exponent.  The digits before/after the point are the
`takeWhile`/`dropWhile` spans of `cs`. -/
def floatMantissa (sgn : ℤ) (cs : List Char) : Option ℚ :=
  if (cs.dropWhile Char.isDigit).head? = some '.' then
    if cs.takeWhile Char.isDigit = [] ∧
        (cs.dropWhile Char.isDigit).tail.takeWhile Char.isDigit = [] then none
    else
      expSuffix ((sgn : ℚ) *
          ((digitsVal (cs.takeWhile Char.isDigit) : ℚ) +
            (digitsVal ((cs.dropWhile Char.isDigit).tail.takeWhile Char.isDigit) : ℚ) /
              (10 : ℚ) ^ ((cs.dropWhile Char.isDigit).tail.takeWhile Char.isDigit).length))
        ((cs.dropWhile Char.isDigit).tail.dropWhile Char.isDigit)
  else
    if cs.takeWhile Char.isDigit = [] then none
    else
      expSuffix ((sgn : ℚ) * (digitsVal (cs.takeWhile Char.isDigit) : ℚ))
        (cs.dropWhile Char.isDigit)

/-- `float(s)` on finite decimal literals: optional surrounding
whitespace, optional sign, then mantissa and exponent. -/
def pyFloatChars (cs : List Char) : Option ℚ :=
  floatMantissa (readSign (stripChars cs)).1 (readSign (stripChars cs)).2

/-- `float(s)` on a `String`. -/
def pyFloat (s : String) : Option ℚ := pyFloatChars s.data

/-! ## Time parsing (`parse_time_to_seconds`) -/

/-- The `DQ_LIKE` set of non-finishing markers from the source. -/
def DQ_LIKE : List String := ["DQ", "DSQ", "DNF", "DNS", "NS", "SCR", "NT", ""]

/-- `str(x).strip().upper()` as applied to a raw time cell. -/
def trimUpper (s : String) : String := pyUpper (pyStrip s)

/-- `parse_time_to_seconds(x)`: seconds as `ℚ`, or `none` (the model of
`np.nan`) for missing cells, `DQ_LIKE` markers and unparseable strings.
The Python original never raises: its `try`/`except` resolves every
failure to `np.nan`, which the total `Option`-valued function mirrors. -/
def parse_time_to_seconds (x : Option String) : Option ℚ :=
  match x with
  | none => none
  | some x0 =>
    if trimUpper x0 ∈ DQ_LIKE then none
    else if strContains (trimUpper x0) ':' then
      match pyIntChars (splitFirst ':' (trimUpper x0).data).1,
          pyFloatChars (splitFirst ':' (trimUpper x0).data).2 with
      | some m, some q => some ((m : ℚ) * 60 + q)
      | _, _ => none
    else pyFloatChars (trimUpper x0).data

/-! ## Time formatting (`format_time`) -/

/-- The dynamically-typed argument of `format_time`: `NaN`/`None`, a
string, or a numeric seconds value. -/
inductive PyVal where
  | none
  | str (s : String)
  | num (q : ℚ)

/-- Little-endian decimal digits of a natural number (`0` has one digit). -/
def natDigitsLE (n : ℕ) : List ℕ :=
  if h : n < 10 then [n]
  else n % 10 :: natDigitsLE (n / 10)
  decreasing_by exact Nat.div_lt_self (by omega) (by omega)

/-- `str(n)` for a natural number. -/
def natRepr (n : ℕ) : String :=
  String.mk ((natDigitsLE n).reverse.map (fun d => Char.ofNat (48 + d)))

/-- `str(m)` for an integer. -/
def intRepr (m : ℤ) : String :=
  if m < 0 then "-" ++ natRepr m.natAbs else natRepr m.toNat

/-- Round to the nearest integer, ties to even — the rounding used by
`format` on exactly-representable values. -/
def roundHalfEven (x : ℚ) : ℤ :=
  if x - ⌊x⌋ = 1 / 2 then (if ⌊x⌋ % 2 = 0 then ⌊x⌋ else ⌊x⌋ + 1)
  else ⌊x + 1 / 2⌋

/-- `q` rounded to hundredths, as a count of hundredths. -/
def round2 (q : ℚ) : ℤ := roundHalfEven (q * 100)

/-- Two-digit zero-padded rendering of `k < 100`. -/
def pad2 (k : ℕ) : String := (if k < 10 then "0" else "") ++ natRepr k

/-- Render `n` hundredths as a decimal numeral with exactly two decimals. -/
def hundredthsRepr (n : ℕ) : String := natRepr (n / 100) ++ "." ++ pad2 (n % 100)

/-- `f"{q:.2f}"` (on the `ℚ` idealization; `-0.00` collapses to `0.00`,
which no claim here observes). -/
def fmt2 (q : ℚ) : String :=
  if round2 q < 0 then "-" ++ hundredthsRepr (round2 q).natAbs
  else hundredthsRepr (round2 q).toNat

/-- Zero-fill a character list to width `w` after any leading sign. -/
def zfillChars (w : ℕ) (cs : List Char) : List Char :=
  if w ≤ cs.length then cs
  else if cs.head? = some '-' then '-' :: (List.replicate (w - cs.length) '0' ++ cs.tail)
  else List.replicate (w - cs.length) '0' ++ cs

/-- Zero-fill to width `w` after any leading sign, as in `f"{q:05.2f}"`. -/
def zfill (w : ℕ) (s : String) : String := String.mk (zfillChars w s.data)

/-- The numeric branch of `format_time`: `M:SS.ss` for `sec ≥ 60`
(`int(sec // 60)` minutes, `f"{rem:05.2f}"` seconds), else `f"{sec:.2f}"`. -/
def renderSeconds (sec : ℚ) : String :=
  if 60 ≤ sec then
    intRepr ⌊sec / 60⌋ ++ ":" ++ zfill 5 (fmt2 (sec - (⌊sec / 60⌋ : ℚ) * 60))
  else fmt2 sec

/-- `format_time(x)`.  For the numeric case the source round-trips the
float through `str`/`float` (exact for binary64 `repr`) and its `repr`
never contains `:` nor spells a `DQ_LIKE` marker, so it always reaches the
seconds-rendering branch. -/
def format_time (x : PyVal) : String :=
  match x with
  | .none => "N/A"
  | .str x0 =>
    if pyUpper (pyStrip x0) ∈ DQ_LIKE ∨ pyUpper (pyStrip x0) = "N/A" then pyStrip x0
    else if strContains (pyStrip x0) ':' then pyStrip x0
    else
      match pyFloatChars (pyStrip x0).data with
      | some sec => renderSeconds sec
      | Option.none => pyStrip x0
  | .num q => renderSeconds q

/-! ## The working set: records and the load-time name cleaning -/

/-- One row of the combined working set (`load_all_swimming_data`), after
cleaning.  Cells read from CSV with `dtype=str` are `Option String`
(`none` models `NaN`); `Meet_Date` is `pd.to_datetime(..., errors="coerce")`,
modelled as an ordinal day, with `none` for `NaT`; `Event_Type` comes from
the file name and is always present. -/
structure Record where
  meetName : Option String
  meetDate : Option ℤ
  name : String
  rank : Option String
  timeRaw : Option String
  team : Option String
  eventType : String
  deriving DecidableEq, Repr

/-- The derived `Time_s` column: `combined["Time"].apply(parse_time_to_seconds)`. -/
def time_s (r : Record) : Option ℚ := parse_time_to_seconds r.timeRaw

/-- A row as it stands before the name cleaning of `load_all_swimming_data`
(after the per-file `dropna(how="all")`, so at least one cell is present). -/
structure RawRow where
  rawName : Option String
  rawTime : Option String
  deriving DecidableEq, Repr

/-- A row after the `Name` column has been cleaned. -/
structure NamedRow where
  name : String
  rawTime : Option String
  deriving DecidableEq, Repr

/-- `combined["Name"].astype(str).str.strip()` on one cell: a missing
name stringifies to the literal `"nan"` before stripping. -/
def nameCell : Option String → String
  | none => "nan"
  | some s => pyStrip s

/-- The cleaning carried out by lines 126–127 of the source: stringify and
strip the `Name` column, then drop rows whose name has length 0. -/
def cleanNames (rows : List RawRow) : List NamedRow :=
  (rows.map fun row => { name := nameCell row.rawName, rawTime := row.rawTime }).filter
    fun r => 0 < r.name.length

/-! ## Filters -/

/-- Python's `<` on strings: lexicographic by code point. -/
def lexLt : List Char → List Char → Bool
  | [], [] => false
  | [], _ :: _ => true
  | _ :: _, [] => false
  | a :: as, b :: bs => if a < b then true else if b < a then false else lexLt as bs

/-- Insert into an ascending list (stable, as Python's `sorted`). -/
def insertStr (x : String) : List String → List String
  | [] => [x]
  | y :: ys => if lexLt y.data x.data then y :: insertStr x ys else x :: y :: ys

/-- Ascending stable sort, modelling Python's `sorted` on strings. -/
def sortStrings : List String → List String
  | [] => []
  | x :: xs => insertStr x (sortStrings xs)

/-- Python `str.split()` with no separator: whitespace runs, empties dropped. -/
def pyWords (s : String) : List String :=
  ((s.data.splitOnP Char.isWhitespace).filter (· ≠ [])).map String.mk

/-- `" ".join(sorted(name.lower().split()))` — the normal form used by
the swimmer filter (lines 262–266).  `split()` splits on whitespace runs
and drops empty pieces; `sorted` is lexicographic on code points. -/
def normalizeName (s : String) : String :=
  " ".intercalate (sortStrings (pyWords (pyLower s)))

/-- The swimmer filter (lines 259–267), including its `"All Swimmers"`
sentinel that disables filtering. -/
def filterSwimmer (swimmerName : String) (l : List Record) : List Record :=
  if swimmerName = "All Swimmers" then l
  else l.filter fun r => normalizeName r.name = normalizeName swimmerName

/-- The date-range filter (lines 275–281).  `none` models an absent or
incomplete `date_range`; the filter is also skipped when every date in
the current frame is `NaT` (`isna().all()`, vacuously true on an empty
frame, as in pandas).  A `NaT` date fails both comparisons. -/
def applyDateFilter (dateRange : Option (ℤ × ℤ)) (l : List Record) : List Record :=
  match dateRange with
  | none => l
  | some (s, e) =>
    if l.all fun r => r.meetDate = none then l
    else
      l.filter fun r =>
        match r.meetDate with
        | some d => decide (s ≤ d ∧ d ≤ e)
        | none => false

/-! ## Aggregates -/

/-- The records with a valid (non-null) `Time_s` (`chart_data["Time_s"].notna()`). -/
def validRecords (l : List Record) : List Record := l.filter fun r => (time_s r).isSome

/-- The valid `Time_s` values of a record list. -/
def validTimes (l : List Record) : List ℚ := l.filterMap time_s

/-- Best performance (lines 336–348): `none` models the
"All results are DQ / no-time" message; otherwise `valid.loc[valid["Time_s"].idxmin()]`,
the first row attaining the minimal valid time. -/
def bestPerformance (l : List Record) : Option Record :=
  match validRecords l with
  | [] => none
  | v :: vs => some (vs.foldl (fun b r => if (time_s r).getD 0 < (time_s b).getD 0 then r else b) v)

/-- Summary statistics (lines 350–365): with at least two valid times,
`(min, max, mean, max - min)`; otherwise `none` (only the event count is
shown). -/
def summaryStats (l : List Record) : Option (ℚ × ℚ × ℚ × ℚ) :=
  match validTimes l with
  | [] => none
  | [_] => none
  | q :: qs =>
    some (qs.foldl min q, qs.foldl max q,
      (q :: qs).sum / ((q :: qs).length : ℚ),
      qs.foldl max q - qs.foldl min q)

/-- `min` of a float column: `none` on an all-missing (empty) column, as
pandas `min` skips `NaN`. -/
def listMin : List ℚ → Option ℚ
  | [] => none
  | q :: qs => some (qs.foldl min q)

/-- `_rank_to_num` (lines 382–386) applied to a `Rank` cell: `float(x)`,
with any failure — and the `float("nan")` result for a missing cell —
collapsing to `NaN`, which the subsequent `min` skips. -/
def rankNum (r : Record) : Option ℚ :=
  match r.rank with
  | none => none
  | some s => pyFloat s

/-- One row of the event-comparison table. -/
structure CompRow where
  eventType : String
  bestTime : Option ℚ
  eventCount : ℕ
  bestRank : Option ℚ
  deriving DecidableEq, Repr

/-- The group keys of `groupby("Event_Type")`: distinct values, in sorted
order as pandas produces them. -/
def eventTypes (l : List Record) : List String :=
  sortStrings ((l.map Record.eventType).dedup)

/-- The records of one `Event_Type` group. -/
def groupOf (l : List Record) (et : String) : List Record :=
  l.filter fun r => r.eventType = et

/-- The event-comparison table (lines 372–394): per event type, the
minimum valid `Time_s` (`NaN`, i.e. `none`, when the group has no valid
time), the pandas `count` of the `Time` column (its non-null entries),
and the minimum numeric rank coercion, merged on the shared group keys. -/
def eventComparison (l : List Record) : List CompRow :=
  (eventTypes l).map fun et =>
    let g := groupOf l et
    { eventType := et
      bestTime := listMin (validTimes g)
      eventCount := g.countP fun r => r.timeRaw.isSome
      bestRank := listMin (g.filterMap rankNum) }

end Swim

namespace Swim

/- Sanity checks mirroring §8 of the design document (results on the
`none` paths reduce in the kernel; numeric results are proved later via
the evaluation lemmas, since `ℚ` arithmetic does not kernel-reduce). -/

example : parse_time_to_seconds (some "DQ") = none := by decide
example : parse_time_to_seconds (some "") = none := by decide
example : parse_time_to_seconds (some "garbage") = none := by decide
example : parse_time_to_seconds (some " dnf ") = none := by decide
example : parse_time_to_seconds (some "1:") = none := by decide
example : parse_time_to_seconds (some "a:30") = none := by decide
example : parse_time_to_seconds none = none := by decide
example : format_time .none = "N/A" := by decide
example : format_time (.str "DQ") = "DQ" := by decide
example : format_time (.str "nt") = "nt" := by decide
example : format_time (.str "1:02.34") = "1:02.34" := by decide
example : format_time (.str "weird") = "weird" := by decide

/-! ## Character-level lemmas -/

theorem isDigit_toNat {c : Char} (h : c.isDigit = true) : 48 ≤ c.toNat ∧ c.toNat ≤ 57 := by
  simp only [Char.isDigit, Bool.and_eq_true, decide_eq_true_eq] at h
  exact ⟨UInt32.le_toNat_of_le (by norm_num) h.1, UInt32.toNat_le_of_le (by norm_num) h.2⟩

theorem digit_not_ws {c : Char} (h : c.isDigit = true) : c.isWhitespace = false := by
  have hb := isDigit_toNat h
  simp only [Char.isWhitespace, Bool.or_eq_false_iff, decide_eq_false_iff_not]
  refine ⟨⟨⟨?_, ?_⟩, ?_⟩, ?_⟩ <;> rintro rfl <;> revert hb <;> decide

theorem digit_toUpper {c : Char} (h : c.isDigit = true) : c.toUpper = c := by
  have hb := isDigit_toNat h
  unfold Char.toUpper
  exact if_neg (by omega)

theorem digit_ne_chars {c : Char} (h : c.isDigit = true) :
    c ≠ ':' ∧ c ≠ '.' ∧ c ≠ '-' ∧ c ≠ '+' := by
  have hb := isDigit_toNat h
  refine ⟨?_, ?_, ?_, ?_⟩ <;> rintro rfl <;> revert hb <;> decide

/-- The characters of the strings rendered by `format_time`. -/
def tame (c : Char) : Prop := c.isDigit = true ∨ c = '.' ∨ c = ':'

theorem tame_not_ws {c : Char} (h : tame c) : c.isWhitespace = false := by
  rcases h with h | rfl | rfl
  · exact digit_not_ws h
  · decide
  · decide

theorem tame_toUpper {c : Char} (h : tame c) : c.toUpper = c := by
  rcases h with h | rfl | rfl
  · exact digit_toUpper h
  · decide
  · decide

theorem dch_isDigit {d : ℕ} (h : d < 10) : (Char.ofNat (48 + d)).isDigit = true := by
  interval_cases d <;> decide

theorem dch_digitVal {d : ℕ} (h : d < 10) : digitVal (Char.ofNat (48 + d)) = d := by
  interval_cases d <;> decide

/-! ## List-scanning lemmas -/

theorem dropWhile_all_false {p : Char → Bool} :
    ∀ {cs : List Char}, (∀ c ∈ cs, p c = false) → cs.dropWhile p = cs
  | [], _ => rfl
  | c :: cs, h => by
    have hc := h c (List.mem_cons_self ..)
    simp [List.dropWhile_cons, hc]

theorem stripChars_eq_self {cs : List Char} (h : ∀ c ∈ cs, c.isWhitespace = false) :
    stripChars cs = cs := by
  unfold stripChars
  rw [dropWhile_all_false h, dropWhile_all_false, List.reverse_reverse]
  intro c hc
  exact h c (by simpa using hc)

theorem map_id_of_fix {f : Char → Char} :
    ∀ {cs : List Char}, (∀ c ∈ cs, f c = c) → cs.map f = cs
  | [], _ => rfl
  | c :: cs, h => by
    have hc := h c (List.mem_cons_self ..)
    have ih := map_id_of_fix (fun d hd => h d (List.mem_cons_of_mem _ hd))
    simp [hc, ih]

theorem span_all_true {p : Char → Bool} :
    ∀ {cs : List Char}, (∀ c ∈ cs, p c = true) →
      cs.takeWhile p = cs ∧ cs.dropWhile p = []
  | [], _ => ⟨rfl, rfl⟩
  | c :: cs, h => by
    have hc := h c (List.mem_cons_self ..)
    have ih := span_all_true (fun d hd => h d (List.mem_cons_of_mem _ hd))
    simp [List.takeWhile_cons, List.dropWhile_cons, hc, ih.1, ih.2]

theorem span_digits_mid {p : Char → Bool} {x : Char} (hx : p x = false) :
    ∀ (ds : List Char) (rest : List Char), (∀ c ∈ ds, p c = true) →
      (ds ++ x :: rest).takeWhile p = ds ∧ (ds ++ x :: rest).dropWhile p = x :: rest
  | [], rest, _ => by simp [List.takeWhile_cons, List.dropWhile_cons, hx]
  | d :: ds, rest, h => by
    have hd := h d (List.mem_cons_self ..)
    have ih := span_digits_mid hx ds rest (fun c hc => h c (List.mem_cons_of_mem _ hc))
    simp [List.takeWhile_cons, List.dropWhile_cons, hd, ih.1, ih.2]

theorem readSign_cons {c : Char} {rest : List Char} (h1 : c ≠ '-') (h2 : c ≠ '+') :
    readSign (c :: rest) = (1, c :: rest) := by
  simp [readSign, h1, h2]

theorem splitFirst_colon (rest : List Char) :
    ∀ ds : List Char, (∀ c ∈ ds, c ≠ ':') →
      splitFirst ':' (ds ++ ':' :: rest) = (ds, rest)
  | [], _ => by simp [splitFirst]
  | d :: ds, h => by
    have hd := h d (List.mem_cons_self ..)
    have ih := splitFirst_colon rest ds (fun c hc => h c (List.mem_cons_of_mem _ hc))
    simp [splitFirst, hd, ih]

/-! ## Digit-string value lemmas -/

theorem digitsVal_append_singleton (cs : List Char) (c : Char) :
    digitsVal (cs ++ [c]) = digitsVal cs * 10 + digitVal c := by
  simp [digitsVal, List.foldl_append]

theorem digitsVal_cons_zero (cs : List Char) : digitsVal ('0' :: cs) = digitsVal cs := rfl

theorem natDigitsLE_lt10 : ∀ n : ℕ, ∀ d ∈ natDigitsLE n, d < 10 := by
  intro n
  induction n using Nat.strong_induction_on with
  | _ n ih =>
    rw [natDigitsLE.eq_def]
    by_cases h : n < 10
    · rw [dif_pos h]
      intro d hd
      rcases List.mem_cons.mp hd with rfl | hd
      · omega
      · simp at hd
    · rw [dif_neg h]
      intro d hd
      rcases List.mem_cons.mp hd with rfl | hd
      · omega
      · exact ih (n / 10) (Nat.div_lt_self (by omega) (by omega)) d hd

theorem natDigitsLE_ne_nil (n : ℕ) : natDigitsLE n ≠ [] := by
  rw [natDigitsLE.eq_def]
  by_cases h : n < 10
  · rw [dif_pos h]; simp
  · rw [dif_neg h]; simp

theorem digitsVal_digits (n : ℕ) :
    digitsVal (((natDigitsLE n).reverse).map (fun d => Char.ofNat (48 + d))) = n := by
  induction n using Nat.strong_induction_on with
  | _ n ih =>
    rw [natDigitsLE.eq_def]
    by_cases h : n < 10
    · rw [dif_pos h]
      show digitsVal ([] ++ [Char.ofNat (48 + n)]) = n
      rw [digitsVal_append_singleton, dch_digitVal h]
      simp [digitsVal]
    · rw [dif_neg h]
      simp only [List.reverse_cons, List.map_append, List.map_cons, List.map_nil]
      rw [digitsVal_append_singleton, ih (n / 10) (Nat.div_lt_self (by omega) (by omega)),
        dch_digitVal (by omega)]
      omega

theorem natRepr_data (n : ℕ) :
    (natRepr n).data = ((natDigitsLE n).reverse).map (fun d => Char.ofNat (48 + d)) := rfl

theorem digitsVal_natRepr (n : ℕ) : digitsVal (natRepr n).data = n :=
  digitsVal_digits n

theorem natRepr_all_digit (n : ℕ) : ∀ c ∈ (natRepr n).data, c.isDigit = true := by
  intro c hc
  rw [natRepr_data] at hc
  obtain ⟨d, hd, rfl⟩ := List.mem_map.mp hc
  exact dch_isDigit (natDigitsLE_lt10 n d (List.mem_reverse.mp hd))

theorem natRepr_ne_nil (n : ℕ) : (natRepr n).data ≠ [] := by
  rw [natRepr_data]
  simp [natDigitsLE_ne_nil]

theorem natRepr_head_digit (n : ℕ) :
    ∃ c cs, (natRepr n).data = c :: cs ∧ c.isDigit = true := by
  cases h : (natRepr n).data with
  | nil => exact absurd h (natRepr_ne_nil n)
  | cons c cs =>
    exact ⟨c, cs, rfl, natRepr_all_digit n c (h ▸ List.mem_cons_self ..)⟩

theorem natDigitsLE_single {n : ℕ} (h : n < 10) : natDigitsLE n = [n] := by
  rw [natDigitsLE.eq_def, dif_pos h]

theorem natDigitsLE_double {n : ℕ} (h1 : 10 ≤ n) (h2 : n < 100) :
    natDigitsLE n = [n % 10, n / 10] := by
  rw [natDigitsLE.eq_def, dif_neg (by omega), natDigitsLE_single (by omega)]

theorem natRepr_length_one {n : ℕ} (h : n < 10) : (natRepr n).data.length = 1 := by
  rw [natRepr_data, natDigitsLE_single h]
  rfl

theorem natRepr_length_two {n : ℕ} (h1 : 10 ≤ n) (h2 : n < 100) :
    (natRepr n).data.length = 2 := by
  rw [natRepr_data, natDigitsLE_double h1 h2]
  rfl

/-! ## Evaluating the numeric parsers on digit strings -/

theorem pyIntChars_digits {ds : List Char} (hd : ∀ c ∈ ds, c.isDigit = true)
    (hne : ds ≠ []) : pyIntChars ds = some (digitsVal ds : ℤ) := by
  obtain ⟨d0, ds', rfl⟩ : ∃ d0 ds', ds = d0 :: ds' := by
    cases ds with
    | nil => exact absurd rfl hne
    | cons a as => exact ⟨a, as, rfl⟩
  have h0 := hd d0 (List.mem_cons_self ..)
  have hnum := digit_ne_chars h0
  unfold pyIntChars
  rw [stripChars_eq_self (fun c hc => digit_not_ws (hd c hc)),
    readSign_cons hnum.2.2.1 hnum.2.2.2]
  rw [if_pos ⟨by simp, List.all_eq_true.mpr fun c hc => hd c hc⟩]
  simp

theorem expSuffix_nil (m : ℚ) : expSuffix m [] = some m := rfl

theorem floatMantissa_digits {ds fs : List Char} (hd : ∀ c ∈ ds, c.isDigit = true)
    (hf : ∀ c ∈ fs, c.isDigit = true) (hne : ds ≠ []) :
    floatMantissa 1 (ds ++ '.' :: fs) =
      some ((digitsVal ds : ℚ) + (digitsVal fs : ℚ) / (10 : ℚ) ^ fs.length) := by
  have hspan := span_digits_mid (show Char.isDigit '.' = false by decide) ds fs hd
  unfold floatMantissa
  rw [hspan.1, hspan.2]
  rw [show ('.' :: fs).head? = some '.' from rfl, if_pos rfl,
    show ('.' :: fs).tail = fs from rfl,
    (span_all_true hf).1, (span_all_true hf).2]
  rw [if_neg (by simp [hne])]
  rw [expSuffix_nil]
  norm_num

theorem pyFloatChars_digits {ds fs : List Char} (hd : ∀ c ∈ ds, c.isDigit = true)
    (hf : ∀ c ∈ fs, c.isDigit = true) (hne : ds ≠ []) :
    pyFloatChars (ds ++ '.' :: fs) =
      some ((digitsVal ds : ℚ) + (digitsVal fs : ℚ) / (10 : ℚ) ^ fs.length) := by
  have hstrip : stripChars (ds ++ '.' :: fs) = ds ++ '.' :: fs := by
    apply stripChars_eq_self
    intro c hc
    rcases List.mem_append.mp hc with hc | hc
    · exact digit_not_ws (hd c hc)
    · rcases List.mem_cons.mp hc with rfl | hc
      · decide
      · exact digit_not_ws (hf c hc)
  obtain ⟨d0, ds', rfl⟩ : ∃ d0 ds', ds = d0 :: ds' := by
    cases ds with
    | nil => exact absurd rfl hne
    | cons a as => exact ⟨a, as, rfl⟩
  have h0 := hd d0 (List.mem_cons_self ..)
  have hnum := digit_ne_chars h0
  unfold pyFloatChars
  rw [hstrip, show ((d0 :: ds') ++ '.' :: fs) = d0 :: (ds' ++ '.' :: fs) from rfl,
    readSign_cons hnum.2.2.1 hnum.2.2.2]
  exact floatMantissa_digits hd hf hne

theorem pyFloatChars_int_digits {ds : List Char} (hd : ∀ c ∈ ds, c.isDigit = true)
    (hne : ds ≠ []) : pyFloatChars ds = some ((digitsVal ds : ℚ)) := by
  obtain ⟨d0, ds', rfl⟩ : ∃ d0 ds', ds = d0 :: ds' := by
    cases ds with
    | nil => exact absurd rfl hne
    | cons a as => exact ⟨a, as, rfl⟩
  have h0 := hd d0 (List.mem_cons_self ..)
  have hnum := digit_ne_chars h0
  unfold pyFloatChars
  rw [stripChars_eq_self (fun c hc => digit_not_ws (hd c hc)),
    readSign_cons hnum.2.2.1 hnum.2.2.2]
  unfold floatMantissa
  rw [(span_all_true hd).1, (span_all_true hd).2]
  rw [if_neg (by simp), if_neg hne, expSuffix_nil]
  norm_num

/-! ## The rendered decimal strings -/

theorem pad2_spec {k : ℕ} (h : k < 100) :
    (∀ c ∈ (pad2 k).data, c.isDigit = true) ∧
      digitsVal (pad2 k).data = k ∧ (pad2 k).data.length = 2 := by
  by_cases h10 : k < 10
  · have hdata : (pad2 k).data = '0' :: (natRepr k).data := by
      simp [pad2, h10, String.data_append]
    rw [hdata]
    refine ⟨?_, ?_, ?_⟩
    · intro c hc
      rcases List.mem_cons.mp hc with rfl | hc
      · decide
      · exact natRepr_all_digit k c hc
    · rw [digitsVal_cons_zero, digitsVal_natRepr]
    · simp [natRepr_length_one h10]
  · have hdata : (pad2 k).data = (natRepr k).data := by
      simp [pad2, h10, String.data_append]
    rw [hdata]
    exact ⟨natRepr_all_digit k, digitsVal_natRepr k,
      natRepr_length_two (by omega) h⟩

theorem hundredthsRepr_data (n : ℕ) :
    (hundredthsRepr n).data = (natRepr (n / 100)).data ++ '.' :: (pad2 (n % 100)).data := by
  simp [hundredthsRepr, String.data_append]

theorem div_add_mod_hundredths (n : ℕ) :
    ((n / 100 : ℕ) : ℚ) + ((n % 100 : ℕ) : ℚ) / (10 : ℚ) ^ 2 = (n : ℚ) / 100 := by
  have h : (100 : ℚ) * ((n / 100 : ℕ) : ℚ) + ((n % 100 : ℕ) : ℚ) = (n : ℚ) := by
    exact_mod_cast congrArg (fun k : ℕ => (k : ℚ)) (Nat.div_add_mod n 100)
  have h102 : (10 : ℚ) ^ 2 = 100 := by norm_num
  rw [h102]
  field_simp
  linarith [h]

theorem pyFloat_hundredths (n : ℕ) :
    pyFloatChars (hundredthsRepr n).data = some ((n : ℚ) / 100) := by
  have hmod : n % 100 < 100 := Nat.mod_lt _ (by omega)
  rw [hundredthsRepr_data]
  rw [pyFloatChars_digits (natRepr_all_digit _) (pad2_spec hmod).1 (natRepr_ne_nil _)]
  rw [digitsVal_natRepr, (pad2_spec hmod).2.1, (pad2_spec hmod).2.2]
  rw [div_add_mod_hundredths]

theorem pyFloat_zero_hundredths (n : ℕ) :
    pyFloatChars ('0' :: (hundredthsRepr n).data) = some ((n : ℚ) / 100) := by
  have hmod : n % 100 < 100 := Nat.mod_lt _ (by omega)
  have hdigits : ∀ c ∈ '0' :: (natRepr (n / 100)).data, c.isDigit = true := by
    intro c hc
    rcases List.mem_cons.mp hc with rfl | hc
    · decide
    · exact natRepr_all_digit _ c hc
  rw [hundredthsRepr_data, show '0' :: ((natRepr (n / 100)).data ++ '.' :: (pad2 (n % 100)).data)
      = ('0' :: (natRepr (n / 100)).data) ++ '.' :: (pad2 (n % 100)).data from rfl]
  rw [pyFloatChars_digits hdigits (pad2_spec hmod).1 (by simp)]
  rw [digitsVal_cons_zero, digitsVal_natRepr, (pad2_spec hmod).2.1, (pad2_spec hmod).2.2]
  rw [div_add_mod_hundredths]

/-! ## Parsing the strings rendered by `format_time` -/

theorem data_mk (cs : List Char) : (String.mk cs).data = cs := rfl

theorem mk_data (s : String) : String.mk s.data = s := rfl

theorem cons_not_in_DQ {c : Char} {cs : List Char} (hc : c.isDigit = true) :
    ¬ String.mk (c :: cs) ∈ DQ_LIKE := by
  have hb := isDigit_toNat hc
  intro hmem
  rw [show DQ_LIKE = [String.mk ['D', 'Q'], String.mk ['D', 'S', 'Q'],
    String.mk ['D', 'N', 'F'], String.mk ['D', 'N', 'S'], String.mk ['N', 'S'],
    String.mk ['S', 'C', 'R'], String.mk ['N', 'T'], String.mk []] from rfl] at hmem
  simp only [List.mem_cons, List.not_mem_nil, or_false] at hmem
  rcases hmem with h | h | h | h | h | h | h | h <;>
    (have hdl := congrArg String.data h
     simp only [data_mk] at hdl) <;>
    first
      | (injection hdl with h1 h2; subst h1; revert hb; decide)
      | exact (List.cons_ne_nil c cs) hdl

theorem strContains_true {s : String} (h : ':' ∈ s.data) : strContains s ':' = true := by
  simp only [strContains, List.any_eq_true, decide_eq_true_eq]
  exact ⟨':', h, rfl⟩

theorem strContains_false {s : String} (h : ∀ c ∈ s.data, c ≠ ':') :
    strContains s ':' = false := by
  simp only [strContains, List.any_eq_false, decide_eq_true_eq]
  exact h

theorem trimUpper_fix {s : String} (h : ∀ c ∈ s.data, tame c) : trimUpper s = s := by
  unfold trimUpper pyUpper pyStrip
  rw [data_mk, stripChars_eq_self (fun c hc => tame_not_ws (h c hc)),
    map_id_of_fix (fun c hc => tame_toUpper (h c hc)), mk_data]

theorem hundredths_chars (n : ℕ) :
    ∀ c ∈ (hundredthsRepr n).data, c.isDigit = true ∨ c = '.' := by
  intro c hc
  rw [hundredthsRepr_data] at hc
  rcases List.mem_append.mp hc with hc | hc
  · exact Or.inl (natRepr_all_digit _ c hc)
  · rcases List.mem_cons.mp hc with rfl | hc
    · exact Or.inr rfl
    · exact Or.inl ((pad2_spec (Nat.mod_lt _ (by omega))).1 c hc)

theorem tame_hundredths (n : ℕ) : ∀ c ∈ (hundredthsRepr n).data, tame c := by
  intro c hc
  rcases hundredths_chars n c hc with h | h
  · exact Or.inl h
  · exact Or.inr (Or.inl h)

theorem natRepr_length_ge_two {n : ℕ} (h : 10 ≤ n) : 2 ≤ (natRepr n).data.length := by
  rw [natRepr_data, natDigitsLE.eq_def, dif_neg (by omega)]
  have := natDigitsLE_ne_nil (n / 10)
  cases hnd : natDigitsLE (n / 10) with
  | nil => exact absurd hnd this
  | cons a as => simp

theorem hundredthsRepr_length (n : ℕ) :
    (hundredthsRepr n).data.length = (natRepr (n / 100)).data.length + 3 := by
  rw [hundredthsRepr_data]
  have h2 := (pad2_spec (show n % 100 < 100 from Nat.mod_lt _ (by omega))).2.2
  simp only [List.length_append, List.length_cons, h2]

/-- The shape of the zero-filled seconds field `f"{rem:05.2f}"` for a
nonnegative value of `n` hundredths. -/
theorem zfill5_hundredths (n : ℕ) :
    (zfill 5 (hundredthsRepr n)).data =
      if n < 1000 then '0' :: (hundredthsRepr n).data else (hundredthsRepr n).data := by
  by_cases h : n < 1000
  · rw [if_pos h]
    have hlen : (hundredthsRepr n).data.length = 4 := by
      rw [hundredthsRepr_length, natRepr_length_one (by omega)]
    obtain ⟨c, cs, hdata, hcdig⟩ : ∃ c cs, (natRepr (n / 100)).data = c :: cs ∧
        c.isDigit = true := natRepr_head_digit (n / 100)
    have hcons : (hundredthsRepr n).data = c :: (cs ++ '.' :: (pad2 (n % 100)).data) := by
      rw [hundredthsRepr_data, hdata]; rfl
    have hdq := digit_ne_chars hcdig
    unfold zfill zfillChars
    rw [data_mk, if_neg (by rw [hlen]; omega)]
    rw [if_neg (by rw [hcons]; simp [hdq.2.2.1])]
    rw [hlen, show (5 : ℕ) - 4 = 1 from rfl,
      show List.replicate 1 '0' = ['0'] from rfl]
    rfl
  · rw [if_neg h]
    have hlen : 5 ≤ (hundredthsRepr n).data.length := by
      rw [hundredthsRepr_length]
      have := natRepr_length_ge_two (show 10 ≤ n / 100 by omega)
      omega
    unfold zfill zfillChars
    rw [data_mk, if_pos hlen]

theorem parse_time_some (x0 : String) :
    parse_time_to_seconds (some x0) =
      if trimUpper x0 ∈ DQ_LIKE then none
      else if strContains (trimUpper x0) ':' then
        match pyIntChars (splitFirst ':' (trimUpper x0).data).1,
            pyFloatChars (splitFirst ':' (trimUpper x0).data).2 with
        | some m, some q => some ((m : ℚ) * 60 + q)
        | _, _ => none
      else pyFloatChars (trimUpper x0).data := rfl

/-- `parse_time_to_seconds` inverts the plain `SS.ss` rendering. -/
theorem parse_hundredths (n : ℕ) :
    parse_time_to_seconds (some (hundredthsRepr n)) = some ((n : ℚ) / 100) := by
  obtain ⟨c, cs, hdata, hcdig⟩ : ∃ c cs, (natRepr (n / 100)).data = c :: cs ∧
      c.isDigit = true := natRepr_head_digit (n / 100)
  have hcons : (hundredthsRepr n).data = c :: (cs ++ '.' :: (pad2 (n % 100)).data) := by
    rw [hundredthsRepr_data, hdata]; rfl
  rw [parse_time_some]
  rw [trimUpper_fix (tame_hundredths n)]
  rw [if_neg (by
    rw [show hundredthsRepr n = String.mk (c :: (cs ++ '.' :: (pad2 (n % 100)).data)) by
      rw [← hcons, mk_data]]
    exact cons_not_in_DQ hcdig)]
  rw [strContains_false (by
    intro d hd
    rcases hundredths_chars n d hd with hdig | rfl
    · exact (digit_ne_chars hdig).1
    · decide)]
  simp only [Bool.false_eq_true, if_false]
  rw [pyFloat_hundredths]

/-- `parse_time_to_seconds` inverts the `M:SS.ss` rendering. -/
theorem parse_colon_form (mn n : ℕ) :
    parse_time_to_seconds (some (natRepr mn ++ ":" ++ zfill 5 (hundredthsRepr n))) =
      some ((mn : ℚ) * 60 + (n : ℚ) / 100) := by
  obtain ⟨c, cs, hdata, hcdig⟩ : ∃ c cs, (natRepr mn).data = c :: cs ∧
      c.isDigit = true := natRepr_head_digit mn
  have hscdata : (zfill 5 (hundredthsRepr n)).data =
      if n < 1000 then '0' :: (hundredthsRepr n).data else (hundredthsRepr n).data :=
    zfill5_hundredths n
  have hscchars : ∀ d ∈ (zfill 5 (hundredthsRepr n)).data, d.isDigit = true ∨ d = '.' := by
    intro d hd
    rw [hscdata] at hd
    by_cases h : n < 1000
    · rw [if_pos h] at hd
      rcases List.mem_cons.mp hd with rfl | hd
      · exact Or.inl (by decide)
      · exact hundredths_chars n d hd
    · rw [if_neg h] at hd
      exact hundredths_chars n d hd
  have hqvalue : pyFloatChars (zfill 5 (hundredthsRepr n)).data = some ((n : ℚ) / 100) := by
    rw [hscdata]
    by_cases h : n < 1000
    · rw [if_pos h]; exact pyFloat_zero_hundredths n
    · rw [if_neg h]; exact pyFloat_hundredths n
  have hwhole : (natRepr mn ++ ":" ++ zfill 5 (hundredthsRepr n)).data =
      (natRepr mn).data ++ ':' :: (zfill 5 (hundredthsRepr n)).data := by
    rw [String.data_append, String.data_append,
      show (":" : String).data = [':'] from rfl, List.append_assoc]
    rfl
  have htame : ∀ d ∈ (natRepr mn ++ ":" ++ zfill 5 (hundredthsRepr n)).data, tame d := by
    intro d hd
    rw [hwhole] at hd
    rcases List.mem_append.mp hd with hd | hd
    · exact Or.inl (natRepr_all_digit mn d hd)
    · rcases List.mem_cons.mp hd with rfl | hd
      · exact Or.inr (Or.inr rfl)
      · rcases hscchars d hd with h | rfl
        · exact Or.inl h
        · exact Or.inr (Or.inl rfl)
  rw [parse_time_some]
  rw [trimUpper_fix htame]
  rw [if_neg (by
    rw [show natRepr mn ++ ":" ++ zfill 5 (hundredthsRepr n)
        = String.mk (c :: (cs ++ ':' :: (zfill 5 (hundredthsRepr n)).data)) by
      rw [← mk_data (natRepr mn ++ ":" ++ zfill 5 (hundredthsRepr n)), hwhole, hdata]
      rfl]
    exact cons_not_in_DQ hcdig)]
  rw [strContains_true (by rw [hwhole]; exact List.mem_append_right _ (List.mem_cons_self ..))]
  simp only [if_true]
  rw [hwhole, splitFirst_colon _ _ (fun d hd => (digit_ne_chars (natRepr_all_digit mn d hd)).1)]
  rw [pyIntChars_digits (natRepr_all_digit mn) (natRepr_ne_nil mn), digitsVal_natRepr]
  rw [hqvalue]
  show some (((mn : ℤ) : ℚ) * 60 + (n : ℚ) / 100) = some ((mn : ℚ) * 60 + (n : ℚ) / 100)
  congr 1

/-! ## Rounding bounds and the numeric round trip -/

theorem roundHalfEven_close (x : ℚ) : |((roundHalfEven x : ℤ) : ℚ) - x| ≤ 1 / 2 := by
  unfold roundHalfEven
  by_cases h : x - ⌊x⌋ = 1 / 2
  · by_cases h2 : ⌊x⌋ % 2 = 0
    · rw [if_pos h, if_pos h2, abs_le]
      constructor <;> linarith
    · rw [if_pos h, if_neg h2]
      push_cast
      rw [abs_le]
      constructor <;> linarith
  · rw [if_neg h]
    have h1 : ((⌊x + 1 / 2⌋ : ℤ) : ℚ) ≤ x + 1 / 2 := Int.floor_le _
    have h2 : x + 1 / 2 - 1 < ((⌊x + 1 / 2⌋ : ℤ) : ℚ) := Int.sub_one_lt_floor _
    rw [abs_le]
    constructor <;> linarith

theorem roundHalfEven_nonneg {x : ℚ} (hx : 0 ≤ x) : 0 ≤ roundHalfEven x := by
  unfold roundHalfEven
  have h0 : (0 : ℤ) ≤ ⌊x⌋ := Int.floor_nonneg.mpr hx
  by_cases h : x - ⌊x⌋ = 1 / 2
  · rw [if_pos h]
    by_cases h2 : ⌊x⌋ % 2 = 0
    · rw [if_pos h2]; exact h0
    · rw [if_neg h2]; omega
  · rw [if_neg h]
    exact Int.floor_nonneg.mpr (by linarith)

theorem round2_close (q : ℚ) : |((round2 q : ℤ) : ℚ) / 100 - q| ≤ 1 / 200 := by
  unfold round2
  have h := roundHalfEven_close (q * 100)
  rw [abs_le] at h ⊢
  constructor <;> linarith

theorem round2_nonneg {q : ℚ} (h : 0 ≤ q) : 0 ≤ round2 q :=
  roundHalfEven_nonneg (by linarith)

/-- The numeric round trip: formatting a nonnegative seconds value and
parsing the result back recovers it to within half a hundredth. -/
theorem parse_format_num (t : ℚ) (h0 : 0 ≤ t) :
    ∃ q : ℚ, parse_time_to_seconds (some (format_time (PyVal.num t))) = some q ∧
      |q - t| ≤ 1 / 200 := by
  rw [show format_time (PyVal.num t) = renderSeconds t from rfl]
  unfold renderSeconds
  by_cases hge : 60 ≤ t
  · rw [if_pos hge]
    have hm0 : (0 : ℤ) ≤ ⌊t / 60⌋ := Int.floor_nonneg.mpr (by linarith)
    have hfl : ((⌊t / 60⌋ : ℤ) : ℚ) ≤ t / 60 := Int.floor_le _
    have hrem0 : 0 ≤ t - (⌊t / 60⌋ : ℚ) * 60 := by nlinarith
    have hn0 : 0 ≤ round2 (t - (⌊t / 60⌋ : ℚ) * 60) := round2_nonneg hrem0
    rw [show intRepr ⌊t / 60⌋ = natRepr ⌊t / 60⌋.toNat by
      unfold intRepr; rw [if_neg (not_lt.mpr hm0)]]
    rw [show fmt2 (t - (⌊t / 60⌋ : ℚ) * 60)
        = hundredthsRepr (round2 (t - (⌊t / 60⌋ : ℚ) * 60)).toNat by
      unfold fmt2; rw [if_neg (not_lt.mpr hn0)]]
    refine ⟨_, parse_colon_form _ _, ?_⟩
    have hc1 : ((⌊t / 60⌋.toNat : ℕ) : ℚ) = ((⌊t / 60⌋ : ℤ) : ℚ) := by
      exact_mod_cast congrArg (fun z : ℤ => (z : ℚ)) (Int.toNat_of_nonneg hm0)
    have hc2 : (((round2 (t - (⌊t / 60⌋ : ℚ) * 60)).toNat : ℕ) : ℚ)
        = ((round2 (t - (⌊t / 60⌋ : ℚ) * 60) : ℤ) : ℚ) := by
      exact_mod_cast congrArg (fun z : ℤ => (z : ℚ)) (Int.toNat_of_nonneg hn0)
    rw [hc1, hc2]
    have hclose := round2_close (t - (⌊t / 60⌋ : ℚ) * 60)
    rw [abs_le] at hclose ⊢
    constructor <;> linarith [hclose.1, hclose.2]
  · rw [if_neg hge]
    have hn0 : 0 ≤ round2 t := round2_nonneg h0
    rw [show fmt2 t = hundredthsRepr (round2 t).toNat by
      unfold fmt2; rw [if_neg (not_lt.mpr hn0)]]
    refine ⟨_, parse_hundredths _, ?_⟩
    have hc2 : (((round2 t).toNat : ℕ) : ℚ) = ((round2 t : ℤ) : ℚ) := by
      exact_mod_cast congrArg (fun z : ℤ => (z : ℚ)) (Int.toNat_of_nonneg hn0)
    rw [hc2]
    exact round2_close t

/-- A non-finishing marker string (with no surrounding whitespace) passes
through `format_time` unchanged, casing preserved. -/
theorem format_marker_fix {s : String} (hstrip : pyStrip s = s)
    (hmark : pyUpper s ∈ DQ_LIKE) : format_time (PyVal.str s) = s := by
  show (if pyUpper (pyStrip s) ∈ DQ_LIKE ∨ pyUpper (pyStrip s) = "N/A" then pyStrip s
    else if strContains (pyStrip s) ':' then pyStrip s
    else
      match pyFloatChars (pyStrip s).data with
      | some sec => renderSeconds sec
      | Option.none => pyStrip s) = s
  rw [hstrip, if_pos (Or.inl hmark)]

/-! ## Aggregate lemmas -/

theorem foldl_min_mem (qs : List ℚ) : ∀ q : ℚ, qs.foldl min q ∈ q :: qs := by
  induction qs with
  | nil => intro q; simp
  | cons a as ih =>
    intro q
    have h := ih (min q a)
    rcases List.mem_cons.mp h with h | h
    · rcases min_choice q a with hm | hm
      · exact List.mem_cons.mpr (Or.inl (by rw [List.foldl_cons, h, hm]))
      · refine List.mem_cons.mpr (Or.inr (List.mem_cons.mpr (Or.inl ?_)))
        rw [List.foldl_cons, h, hm]
    · exact List.mem_cons.mpr (Or.inr (List.mem_cons.mpr (Or.inr (by rw [List.foldl_cons]; exact h))))

theorem foldl_min_le (qs : List ℚ) : ∀ q : ℚ, ∀ x ∈ q :: qs, qs.foldl min q ≤ x := by
  induction qs with
  | nil => intro q x hx; simp at hx; simp [hx]
  | cons a as ih =>
    intro q x hx
    rw [List.foldl_cons]
    rcases List.mem_cons.mp hx with rfl | hx
    · exact le_trans (ih (min x a) (min x a) (List.mem_cons_self ..)) (min_le_left ..)
    · rcases List.mem_cons.mp hx with rfl | hx
      · exact le_trans (ih (min q x) (min q x) (List.mem_cons_self ..)) (min_le_right ..)
      · exact ih (min q a) x (List.mem_cons.mpr (Or.inr hx))

theorem foldl_max_mem (qs : List ℚ) : ∀ q : ℚ, qs.foldl max q ∈ q :: qs := by
  induction qs with
  | nil => intro q; simp
  | cons a as ih =>
    intro q
    have h := ih (max q a)
    rcases List.mem_cons.mp h with h | h
    · rcases max_choice q a with hm | hm
      · exact List.mem_cons.mpr (Or.inl (by rw [List.foldl_cons, h, hm]))
      · refine List.mem_cons.mpr (Or.inr (List.mem_cons.mpr (Or.inl ?_)))
        rw [List.foldl_cons, h, hm]
    · exact List.mem_cons.mpr (Or.inr (List.mem_cons.mpr (Or.inr (by rw [List.foldl_cons]; exact h))))

theorem foldl_max_ge (qs : List ℚ) : ∀ q : ℚ, ∀ x ∈ q :: qs, x ≤ qs.foldl max q := by
  induction qs with
  | nil => intro q x hx; simp at hx; simp [hx]
  | cons a as ih =>
    intro q x hx
    rw [List.foldl_cons]
    rcases List.mem_cons.mp hx with rfl | hx
    · exact le_trans (le_max_left ..) (ih (max x a) (max x a) (List.mem_cons_self ..))
    · rcases List.mem_cons.mp hx with rfl | hx
      · exact le_trans (le_max_right ..) (ih (max q x) (max q x) (List.mem_cons_self ..))
      · exact ih (max q a) x (List.mem_cons.mpr (Or.inr hx))

theorem listMin_none_iff {qs : List ℚ} : listMin qs = none ↔ qs = [] := by
  cases qs <;> simp [listMin]

theorem listMin_some {qs : List ℚ} {b : ℚ} (h : listMin qs = some b) :
    b ∈ qs ∧ ∀ x ∈ qs, b ≤ x := by
  cases qs with
  | nil => exact absurd h (by simp [listMin])
  | cons q rest =>
    have hb : rest.foldl min q = b := by simpa [listMin] using h
    exact ⟨hb ▸ foldl_min_mem rest q, fun x hx => hb ▸ foldl_min_le rest q x hx⟩

theorem mem_validTimes {l : List Record} {q : ℚ} :
    q ∈ validTimes l ↔ ∃ r ∈ l, time_s r = some q := by
  simp [validTimes, List.mem_filterMap]

theorem validTimes_nil_iff {l : List Record} :
    validTimes l = [] ↔ ∀ r ∈ l, time_s r = none := by
  constructor
  · intro h r hr
    cases htr : time_s r with
    | none => rfl
    | some q =>
      exact absurd (mem_validTimes.mpr ⟨r, hr, htr⟩) (by simp [h])
  · intro h
    cases hv : validTimes l with
    | nil => rfl
    | cons q qs =>
      obtain ⟨r, hr, hrq⟩ := mem_validTimes.mp (hv ▸ List.mem_cons_self ..)
      rw [h r hr] at hrq
      exact absurd hrq (by simp)

/-- Invariant of the `idxmin`-style fold in `bestPerformance`. -/
theorem foldl_best_spec (vs : List Record) : ∀ v : Record,
    (vs.foldl (fun b r => if (time_s r).getD 0 < (time_s b).getD 0 then r else b) v) ∈ v :: vs ∧
    (time_s (vs.foldl (fun b r => if (time_s r).getD 0 < (time_s b).getD 0 then r else b) v)).getD 0
      ≤ (time_s v).getD 0 ∧
    ∀ r ∈ vs,
      (time_s (vs.foldl (fun b r => if (time_s r).getD 0 < (time_s b).getD 0 then r else b) v)).getD 0
        ≤ (time_s r).getD 0 := by
  induction vs with
  | nil => intro v; exact ⟨List.mem_cons_self .., le_refl _, by simp⟩
  | cons r rest ih =>
    intro v
    rw [List.foldl_cons]
    by_cases hlt : (time_s r).getD 0 < (time_s v).getD 0
    · rw [if_pos hlt]
      obtain ⟨hmem, hle, hall⟩ := ih r
      refine ⟨?_, le_trans hle (le_of_lt hlt), ?_⟩
      · rcases List.mem_cons.mp hmem with h | h
        · exact List.mem_cons.mpr (Or.inr (List.mem_cons.mpr (Or.inl h)))
        · exact List.mem_cons.mpr (Or.inr (List.mem_cons.mpr (Or.inr h)))
      · intro x hx
        rcases List.mem_cons.mp hx with rfl | hx
        · exact hle
        · exact hall x hx
    · rw [if_neg hlt]
      obtain ⟨hmem, hle, hall⟩ := ih v
      refine ⟨?_, hle, ?_⟩
      · rcases List.mem_cons.mp hmem with h | h
        · exact List.mem_cons.mpr (Or.inl h)
        · exact List.mem_cons.mpr (Or.inr (List.mem_cons.mpr (Or.inr h)))
      · intro x hx
        rcases List.mem_cons.mp hx with rfl | hx
        · exact le_trans hle (le_of_not_lt hlt)
        · exact hall x hx

theorem mem_validRecords {l : List Record} {r : Record} :
    r ∈ validRecords l ↔ r ∈ l ∧ (time_s r).isSome = true := by
  simp [validRecords, List.mem_filter]

/-! ## The claims -/

/-- C1: `parse_time_to_seconds` returns null exactly on missing input,
the fixed non-finishing markers (`DQ`, `DSQ`, `DNF`, `DNS`, `NS`, `SCR`,
`NT`, empty — compared after trimming and upper-casing) and failed
numeric parses; on a colon string whose left part parses as an integer
and right part as a float it returns `minutes*60 + seconds`, and with no
colon it returns the direct float parse.  The function is total
(`Option`-valued), mirroring the `try`/`except` that keeps the Python
original from ever raising. -/
theorem C1_parse_time_contract :
    DQ_LIKE = ["DQ", "DSQ", "DNF", "DNS", "NS", "SCR", "NT", ""] ∧
    parse_time_to_seconds none = none ∧
    ∀ x : String,
      (trimUpper x ∈ DQ_LIKE → parse_time_to_seconds (some x) = none) ∧
      (trimUpper x ∉ DQ_LIKE → strContains (trimUpper x) ':' = true →
        (∀ m q, pyIntChars (splitFirst ':' (trimUpper x).data).1 = some m →
          pyFloatChars (splitFirst ':' (trimUpper x).data).2 = some q →
          parse_time_to_seconds (some x) = some ((m : ℚ) * 60 + q)) ∧
        (pyIntChars (splitFirst ':' (trimUpper x).data).1 = none ∨
            pyFloatChars (splitFirst ':' (trimUpper x).data).2 = none →
          parse_time_to_seconds (some x) = none)) ∧
      (trimUpper x ∉ DQ_LIKE → strContains (trimUpper x) ':' = false →
        parse_time_to_seconds (some x) = pyFloatChars (trimUpper x).data) ∧
      (parse_time_to_seconds (some x) = none ↔
        trimUpper x ∈ DQ_LIKE ∨
        (strContains (trimUpper x) ':' = true ∧
          (pyIntChars (splitFirst ':' (trimUpper x).data).1 = none ∨
            pyFloatChars (splitFirst ':' (trimUpper x).data).2 = none)) ∨
        (strContains (trimUpper x) ':' = false ∧
          pyFloatChars (trimUpper x).data = none)) := by
  refine ⟨rfl, rfl, fun x => ?_⟩
  rw [parse_time_some]
  by_cases hm : trimUpper x ∈ DQ_LIKE
  · rw [if_pos hm]
    simp [hm]
  · rw [if_neg hm]
    by_cases hc : strContains (trimUpper x) ':' = true
    · rw [if_pos hc]
      cases hint : pyIntChars (splitFirst ':' (trimUpper x).data).1 with
      | none =>
        cases hfl : pyFloatChars (splitFirst ':' (trimUpper x).data).2 with
        | none => simp [hint, hfl, hm, hc]
        | some q0 => simp [hint, hfl, hm, hc]
      | some m0 =>
        cases hfl : pyFloatChars (splitFirst ':' (trimUpper x).data).2 with
        | none => simp [hint, hfl, hm, hc]
        | some q0 => simp [hint, hfl, hm, hc]
    · obtain hcf : strContains (trimUpper x) ':' = false := by simpa using hc
      rw [if_neg hc]
      simp [hm, hcf]

/-- Witness for C1 at concrete inputs: `"1:02.34"` takes the colon path
with `1*60 + 2.34`, and `" dq "` is a marker after trimming and
upper-casing. -/
theorem C1_parse_time_contract_witness :
    parse_time_to_seconds (some "1:02.34") = some ((1 : ℚ) * 60 + (2 + 34 / 100)) ∧
    parse_time_to_seconds (some " dq ") = none := by
  constructor
  · refine ((C1_parse_time_contract.2.2 "1:02.34").2.1 (by decide) (by decide)).1 1
      (2 + 34 / 100) (by decide) ?_
    have h : (splitFirst ':' (trimUpper "1:02.34").data).2 = ['0', '2'] ++ '.' :: ['3', '4'] := by
      decide
    rw [h, pyFloatChars_digits (by decide) (by decide) (by decide)]
    rw [show digitsVal ['0', '2'] = 2 from by decide,
      show digitsVal ['3', '4'] = 34 from by decide,
      show (['3', '4'] : List Char).length = 2 from rfl]
    norm_num
  · exact (C1_parse_time_contract.2.2 " dq ").1 (by decide)

theorem format_time_str (x : String) :
    format_time (PyVal.str x) =
      if pyUpper (pyStrip x) ∈ DQ_LIKE ∨ pyUpper (pyStrip x) = "N/A" then pyStrip x
      else if strContains (pyStrip x) ':' then pyStrip x
      else
        match pyFloatChars (pyStrip x).data with
        | some sec => renderSeconds sec
        | none => pyStrip x := rfl

/-- C2, counterexample: the claim says a string recognized as a
non-finishing marker is returned *unchanged*, but `format_time` returns
the *stripped* string: `" dq "` is recognized (trims and upper-cases to
`DQ`) yet comes back as `"dq"`. -/
theorem C2_format_time_counterexample :
    pyUpper (pyStrip " dq ") ∈ DQ_LIKE ∧ format_time (PyVal.str " dq ") ≠ " dq " := by
  constructor
  · decide
  · decide

/-- C2, amended: `format_time` returns `"N/A"` on null input; on a string
recognized as a non-finishing marker (or `"N/A"`) it returns the
whitespace-trimmed string, preserving its casing; a trimmed string
containing a colon is returned trimmed; otherwise the trimmed string is
parsed as seconds and rendered — `M:SS.ss` for values ≥ 60, with the
seconds field zero-padded to exactly five characters (two integer
digits, point, two decimals), and `SS.ss` with exactly two decimals
below 60 — while a failed parse returns the trimmed string.  All paths
are total: the `try`/`except` of the source never lets an exception
escape. -/
theorem C2_format_time_amended :
    format_time PyVal.none = "N/A" ∧
    (∀ x, pyUpper (pyStrip x) ∈ DQ_LIKE ∨ pyUpper (pyStrip x) = "N/A" →
      format_time (PyVal.str x) = pyStrip x) ∧
    (∀ x, ¬(pyUpper (pyStrip x) ∈ DQ_LIKE ∨ pyUpper (pyStrip x) = "N/A") →
      strContains (pyStrip x) ':' = true → format_time (PyVal.str x) = pyStrip x) ∧
    (∀ x, ¬(pyUpper (pyStrip x) ∈ DQ_LIKE ∨ pyUpper (pyStrip x) = "N/A") →
      strContains (pyStrip x) ':' = false → pyFloatChars (pyStrip x).data = none →
      format_time (PyVal.str x) = pyStrip x) ∧
    (∀ x q, ¬(pyUpper (pyStrip x) ∈ DQ_LIKE ∨ pyUpper (pyStrip x) = "N/A") →
      strContains (pyStrip x) ':' = false → pyFloatChars (pyStrip x).data = some q →
      format_time (PyVal.str x) = renderSeconds q) ∧
    (∀ q : ℚ, format_time (PyVal.num q) = renderSeconds q) ∧
    (∀ q : ℚ, 60 ≤ q → renderSeconds q =
      intRepr ⌊q / 60⌋ ++ ":" ++ zfill 5 (fmt2 (q - (⌊q / 60⌋ : ℚ) * 60))) ∧
    (∀ q : ℚ, ¬ 60 ≤ q → renderSeconds q = fmt2 q) ∧
    (∀ q : ℚ, 60 ≤ q →
      (zfill 5 (fmt2 (q - (⌊q / 60⌋ : ℚ) * 60))).data.length = 5) ∧
    (∀ q : ℚ, 0 ≤ q → ¬ 60 ≤ q →
      (fmt2 q).data = (natRepr ((round2 q).toNat / 100)).data ++
        '.' :: (pad2 ((round2 q).toNat % 100)).data ∧
      (pad2 ((round2 q).toNat % 100)).data.length = 2) := by
  refine ⟨rfl, ?_, ?_, ?_, ?_, fun q => rfl, ?_, ?_, ?_, ?_⟩
  · intro x h
    rw [format_time_str, if_pos h]
  · intro x h hc
    rw [format_time_str, if_neg h, if_pos hc]
  · intro x h hc hfl
    rw [format_time_str, if_neg h, if_neg (by rw [hc]; simp), hfl]
  · intro x q h hc hfl
    rw [format_time_str, if_neg h, if_neg (by rw [hc]; simp), hfl]
  · intro q h60
    unfold renderSeconds
    rw [if_pos h60]
  · intro q h60
    unfold renderSeconds
    rw [if_neg h60]
  · intro q h60
    have hfl : ((⌊q / 60⌋ : ℤ) : ℚ) ≤ q / 60 := Int.floor_le _
    have hfl2 : q / 60 - 1 < ((⌊q / 60⌋ : ℤ) : ℚ) := Int.sub_one_lt_floor _
    have hq60 : (q / 60) * 60 = q := by
      field_simp
    have hrem0 : 0 ≤ q - (⌊q / 60⌋ : ℚ) * 60 := by nlinarith
    have hremlt : q - (⌊q / 60⌋ : ℚ) * 60 < 60 := by nlinarith
    have hn0 : 0 ≤ round2 (q - (⌊q / 60⌋ : ℚ) * 60) := round2_nonneg hrem0
    have hn6000 : round2 (q - (⌊q / 60⌋ : ℚ) * 60) ≤ 6000 := by
      have hclose := round2_close (q - (⌊q / 60⌋ : ℚ) * 60)
      rw [abs_le] at hclose
      have : ((round2 (q - (⌊q / 60⌋ : ℚ) * 60) : ℤ) : ℚ) < 6001 := by
        linarith [hclose.2]
      exact_mod_cast Int.lt_add_one_iff.mp (by exact_mod_cast this)
    rw [show fmt2 (q - (⌊q / 60⌋ : ℚ) * 60)
        = hundredthsRepr (round2 (q - (⌊q / 60⌋ : ℚ) * 60)).toNat by
      unfold fmt2; rw [if_neg (not_lt.mpr hn0)]]
    rw [zfill5_hundredths]
    by_cases hsmall : (round2 (q - (⌊q / 60⌋ : ℚ) * 60)).toNat < 1000
    · rw [if_pos hsmall]
      rw [List.length_cons, hundredthsRepr_length, natRepr_length_one (by omega)]
    · rw [if_neg hsmall]
      rw [hundredthsRepr_length, natRepr_length_two (by omega) (by omega)]
  · intro q h0 h60
    have hn0 : 0 ≤ round2 q := round2_nonneg h0
    rw [show fmt2 q = hundredthsRepr (round2 q).toNat by
      unfold fmt2; rw [if_neg (not_lt.mpr hn0)]]
    exact ⟨hundredthsRepr_data _,
      (pad2_spec (show (round2 q).toNat % 100 < 100 from Nat.mod_lt _ (by omega))).2.2⟩

/-- Witness for C2 at concrete inputs: the marker `" dq "` comes back
trimmed, and for 62 seconds the zero-padded seconds field has exactly
five characters. -/
theorem C2_format_time_amended_witness :
    format_time (PyVal.str " dq ") = pyStrip " dq " ∧
    (zfill 5 (fmt2 ((62 : ℚ) - (⌊(62 : ℚ) / 60⌋ : ℚ) * 60))).data.length = 5 :=
  ⟨C2_format_time_amended.2.1 " dq " (Or.inl (by decide)),
    C2_format_time_amended.2.2.2.2.2.2.2.2.1 62 (by norm_num)⟩

/-- C3: for numeric seconds `0 ≤ t < 6000`, formatting and re-parsing
recovers `t` to within 0.01 s (the proof gives 1/200, from rounding to
hundredths), and a non-finishing marker string (in any casing, with no
surrounding whitespace) passes through `format_time` unchanged. -/
theorem C3_round_trip :
    (∀ t : ℚ, 0 ≤ t → t < 6000 →
      ∃ q : ℚ, parse_time_to_seconds (some (format_time (PyVal.num t))) = some q ∧
        |q - t| ≤ 1 / 100) ∧
    (∀ s : String, pyStrip s = s → pyUpper s ∈ DQ_LIKE →
      format_time (PyVal.str s) = s) := by
  refine ⟨fun t h0 _ => ?_, fun s h1 h2 => format_marker_fix h1 h2⟩
  obtain ⟨q, hq, hb⟩ := parse_format_num t h0
  exact ⟨q, hq, le_trans hb (by norm_num)⟩

/-- Witness for C3 at `t = 62.34` and at the marker `"dq"`. -/
theorem C3_round_trip_witness :
    (∃ q : ℚ, parse_time_to_seconds (some (format_time (PyVal.num (6234 / 100)))) = some q ∧
      |q - 6234 / 100| ≤ 1 / 100) ∧ format_time (PyVal.str "dq") = "dq" :=
  ⟨C3_round_trip.1 (6234 / 100) (by norm_num) (by norm_num),
    C3_round_trip.2 "dq" (by decide) (by decide)⟩

/- Concrete evaluations of the parser used by several witnesses below. -/

theorem parse_one_oh_five : parse_time_to_seconds (some "1:05.00") = some 65 := by
  rw [parse_time_some, if_neg (by decide), if_pos (by decide),
    show splitFirst ':' (trimUpper "1:05.00").data = (['1'], ['0', '5', '.', '0', '0']) from
      by decide,
    show pyIntChars ['1'] = some 1 from by decide,
    show pyFloatChars ['0', '5', '.', '0', '0'] = some 5 from by
      rw [show (['0', '5', '.', '0', '0'] : List Char) = ['0', '5'] ++ '.' :: ['0', '0'] from rfl,
        pyFloatChars_digits (by decide) (by decide) (by decide),
        show digitsVal ['0', '5'] = 5 from by decide,
        show digitsVal ['0', '0'] = 0 from by decide]
      norm_num]
  show some (((1 : ℤ) : ℚ) * 60 + 5) = some 65
  norm_num

theorem parse_one_minute : parse_time_to_seconds (some "1:00.00") = some 60 := by
  rw [parse_time_some, if_neg (by decide), if_pos (by decide),
    show splitFirst ':' (trimUpper "1:00.00").data = (['1'], ['0', '0', '.', '0', '0']) from
      by decide,
    show pyIntChars ['1'] = some 1 from by decide,
    show pyFloatChars ['0', '0', '.', '0', '0'] = some 0 from by
      rw [show (['0', '0', '.', '0', '0'] : List Char) = ['0', '0'] ++ '.' :: ['0', '0'] from rfl,
        pyFloatChars_digits (by decide) (by decide) (by decide),
        show digitsVal ['0', '0'] = 0 from by decide]
      norm_num]
  show some (((1 : ℤ) : ℚ) * 60 + 0) = some 60
  norm_num

theorem parse_one_99 : parse_time_to_seconds (some "1:99") = some 159 := by
  rw [parse_time_some, if_neg (by decide), if_pos (by decide),
    show splitFirst ':' (trimUpper "1:99").data = (['1'], ['9', '9']) from by decide,
    show pyIntChars ['1'] = some 1 from by decide,
    show pyFloatChars ['9', '9'] = some 99 from by
      rw [pyFloatChars_int_digits (by decide) (by decide),
        show digitsVal ['9', '9'] = 99 from by decide]
      norm_num]
  show some (((1 : ℤ) : ℚ) * 60 + 99) = some 159
  norm_num

theorem parse_neg_one_30 : parse_time_to_seconds (some "-1:30") = some (-30) := by
  rw [parse_time_some, if_neg (by decide), if_pos (by decide),
    show splitFirst ':' (trimUpper "-1:30").data = (['-', '1'], ['3', '0']) from by decide,
    show pyIntChars ['-', '1'] = some (-1) from by decide,
    show pyFloatChars ['3', '0'] = some 30 from by
      rw [pyFloatChars_int_digits (by decide) (by decide),
        show digitsVal ['3', '0'] = 30 from by decide]
      norm_num]
  show some (((-1 : ℤ) : ℚ) * 60 + 30) = some (-30)
  norm_num

/-- C10: the colon branch performs no range validation — `"1:99"` yields
`159` s, `"-1:30"` yields `-60 + 30 = -30` s — and such non-canonical or
negative values enter the working set (`Time_s`) and the aggregates:
`bestPerformance` happily selects the record whose time is `-30`. -/
theorem C10_no_range_validation :
    parse_time_to_seconds (some "1:99") = some 159 ∧
    parse_time_to_seconds (some "-1:30") = some (-30) ∧
    time_s (⟨none, none, "A", none, some "-1:30", none, "E"⟩ : Record) = some (-30) ∧
    bestPerformance [(⟨none, none, "A", none, some "-1:30", none, "E"⟩ : Record)] =
      some (⟨none, none, "A", none, some "-1:30", none, "E"⟩ : Record) ∧
    (-30 : ℚ) ∈ validTimes [(⟨none, none, "A", none, some "-1:30", none, "E"⟩ : Record)] := by
  have ht : time_s (⟨none, none, "A", none, some "-1:30", none, "E"⟩ : Record) =
      some (-30) := parse_neg_one_30
  refine ⟨parse_one_99, parse_neg_one_30, ht, ?_, ?_⟩
  · unfold bestPerformance validRecords
    simp [ht]
  · simp [validTimes, ht]

/-- C9: at load time a missing (`NaN`) swimmer-name cell stringifies to
the literal `"nan"` (length 3), so the record survives the empty-name
exclusion and `"nan"` shows up as a swimmer name, whereas a record whose
name is empty or whitespace-only is removed. -/
theorem C9_nan_name :
    nameCell none = "nan" ∧ ("nan" : String).length = 3 ∧
    (∀ (rows : List RawRow) (row : RawRow), row ∈ rows → row.rawName = none →
      ({ name := "nan", rawTime := row.rawTime } : NamedRow) ∈ cleanNames rows) ∧
    (∀ (rows : List RawRow) (r : NamedRow), r ∈ cleanNames rows → 0 < r.name.length) ∧
    (∀ (rows : List RawRow) (row : RawRow) (s : String), row ∈ rows →
      row.rawName = some s → pyStrip s = "" →
      ({ name := nameCell row.rawName, rawTime := row.rawTime } : NamedRow) ∉
        cleanNames rows) := by
  refine ⟨rfl, rfl, ?_, ?_, ?_⟩
  · intro rows row hrow hname
    unfold cleanNames
    have hpred : decide (0 < ("nan" : String).length) = true := by decide
    refine List.mem_filter.mpr ⟨List.mem_map.mpr ⟨row, hrow, ?_⟩, hpred⟩
    rw [hname]
    rfl
  · intro rows r hr
    unfold cleanNames at hr
    have := (List.mem_filter.mp hr).2
    simpa using this
  · intro rows row s _ hname hempty hmem
    unfold cleanNames at hmem
    have h2 := (List.mem_filter.mp hmem).2
    simp only [hname, nameCell, hempty] at h2
    exact absurd h2 (by decide)

/-- Witness for C9 on a two-row input: the row with a missing name is
kept under the name `"nan"`, and a whitespace-only name is dropped. -/
theorem C9_nan_name_witness :
    ({ name := "nan", rawTime := some "28.43" } : NamedRow) ∈
      cleanNames [⟨none, some "28.43"⟩, ⟨some "   ", none⟩] ∧
    ({ name := nameCell (some "   "), rawTime := (none : Option String) } : NamedRow) ∉
      cleanNames [⟨none, some "28.43"⟩, ⟨some "   ", none⟩] :=
  ⟨C9_nan_name.2.2.1 [⟨none, some "28.43"⟩, ⟨some "   ", none⟩] ⟨none, some "28.43"⟩
      (List.mem_cons_self ..) rfl,
    C9_nan_name.2.2.2.2 [⟨none, some "28.43"⟩, ⟨some "   ", none⟩] ⟨some "   ", none⟩ "   "
      (List.mem_cons.mpr (Or.inr (List.mem_cons_self ..))) rfl (by decide)⟩

/-- C8: when the date-range filter is applied (a two-element range is
selected and some date in the frame is non-null), it keeps exactly the
records whose date `d` satisfies `start ≤ d ≤ end`, both ends inclusive,
and every record with a null date is excluded. -/
theorem C8_date_range_filter (s e : ℤ) (l : List Record)
    (hne : ∃ r ∈ l, r.meetDate ≠ none) :
    (∀ r : Record, r ∈ applyDateFilter (some (s, e)) l ↔
      r ∈ l ∧ ∃ d, r.meetDate = some d ∧ s ≤ d ∧ d ≤ e) ∧
    ∀ r ∈ applyDateFilter (some (s, e)) l, r.meetDate ≠ none := by
  have hall : ¬ ((l.all fun r => r.meetDate = none) = true) := by
    simp only [List.all_eq_true, decide_eq_true_eq]
    push_neg
    exact hne
  have hstep : applyDateFilter (some (s, e)) l =
      l.filter fun r =>
        match r.meetDate with
        | some d => decide (s ≤ d ∧ d ≤ e)
        | none => false := by
    show (if (l.all fun r => r.meetDate = none) = true then l else _) = _
    rw [if_neg hall]
  have hmem : ∀ r : Record, r ∈ applyDateFilter (some (s, e)) l ↔
      r ∈ l ∧ ∃ d, r.meetDate = some d ∧ s ≤ d ∧ d ≤ e := by
    intro r
    rw [hstep, List.mem_filter]
    cases hd : r.meetDate with
    | none => simp [hd]
    | some d => simp [hd]
  refine ⟨hmem, ?_⟩
  intro r hr
  obtain ⟨-, d, hd, -, -⟩ := (hmem r).mp hr
  simp [hd]

/-- Witness for C8 on a concrete frame: with the range `[0, 10]` the
record dated 5 is characterized as kept, and all survivors have dates. -/
theorem C8_date_range_filter_witness :
    ((⟨none, some 5, "A", none, none, none, "E"⟩ : Record) ∈
        applyDateFilter (some ((0 : ℤ), (10 : ℤ)))
          [⟨none, some 5, "A", none, none, none, "E"⟩,
            ⟨none, none, "B", none, none, none, "E"⟩] ↔
      (⟨none, some 5, "A", none, none, none, "E"⟩ : Record) ∈
          [(⟨none, some 5, "A", none, none, none, "E"⟩ : Record),
            ⟨none, none, "B", none, none, none, "E"⟩] ∧
        ∃ d, (some 5 : Option ℤ) = some d ∧ (0 : ℤ) ≤ d ∧ d ≤ 10) :=
  (C8_date_range_filter 0 10
      [⟨none, some 5, "A", none, none, none, "E"⟩, ⟨none, none, "B", none, none, none, "E"⟩]
      ⟨⟨none, some 5, "A", none, none, none, "E"⟩, List.mem_cons_self .., by decide⟩).1
    ⟨none, some 5, "A", none, none, none, "E"⟩

/-- C7: the swimmer filter compares lower-cased, token-sorted names, so
matching is insensitive to case and to token order; queries with equal
normal forms yield identical rows, and in particular `"Smith John"` and
`"John Smith"` (and `"john smith"` versus `"JOHN SMITH"`) filter alike. -/
theorem C7_swimmer_filter :
    (∀ q1 q2 : String, ∀ l : List Record, q1 ≠ "All Swimmers" → q2 ≠ "All Swimmers" →
      normalizeName q1 = normalizeName q2 → filterSwimmer q1 l = filterSwimmer q2 l) ∧
    (∀ q : String, ∀ l : List Record, q ≠ "All Swimmers" →
      filterSwimmer q l = l.filter fun r => normalizeName r.name = normalizeName q) ∧
    (∀ l : List Record, filterSwimmer "Smith John" l = filterSwimmer "John Smith" l) ∧
    (∀ l : List Record, filterSwimmer "john smith" l = filterSwimmer "JOHN SMITH" l) := by
  have hgen : ∀ q1 q2 : String, ∀ l : List Record, q1 ≠ "All Swimmers" →
      q2 ≠ "All Swimmers" → normalizeName q1 = normalizeName q2 →
      filterSwimmer q1 l = filterSwimmer q2 l := by
    intro q1 q2 l h1 h2 hn
    unfold filterSwimmer
    rw [if_neg h1, if_neg h2]
    simp only [hn]
  refine ⟨hgen, ?_, ?_, ?_⟩
  · intro q l hq
    unfold filterSwimmer
    rw [if_neg hq]
  · intro l
    exact hgen "Smith John" "John Smith" l (by decide) (by decide) (by decide)
  · intro l
    exact hgen "john smith" "JOHN SMITH" l (by decide) (by decide) (by decide)

/-- Witness for C7 on a one-record frame. -/
theorem C7_swimmer_filter_witness :
    filterSwimmer "Smith John" [(⟨none, none, "John Smith", none, none, none, "E"⟩ : Record)] =
      filterSwimmer "John Smith"
        [(⟨none, none, "John Smith", none, none, none, "E"⟩ : Record)] :=
  C7_swimmer_filter.1 "Smith John" "John Smith"
    [⟨none, none, "John Smith", none, none, none, "E"⟩] (by decide) (by decide) (by decide)

/-- C5: `bestPerformance` reports "no valid time" (here `none`) exactly
when every record's `Time_s` is null, and any record it selects is a
member of the set, has a non-null time, and attains the minimum over all
non-null times — it can never pick a null-time record while a valid one
exists. -/
theorem C5_best_performance :
    (∀ l : List Record, bestPerformance l = none ↔ ∀ r ∈ l, time_s r = none) ∧
    (∀ (l : List Record) (r : Record), bestPerformance l = some r →
      r ∈ l ∧ ∃ q, time_s r = some q ∧
        ∀ r2 ∈ l, ∀ q2, time_s r2 = some q2 → q ≤ q2) := by
  constructor
  · intro l
    cases hv : validRecords l with
    | nil =>
      unfold bestPerformance
      rw [hv]
      constructor
      · intro _ r hr
        cases ht : time_s r with
        | none => rfl
        | some q =>
          have hmem : r ∈ validRecords l := mem_validRecords.mpr ⟨hr, by simp [ht]⟩
          rw [hv] at hmem
          simp at hmem
      · intro _
        rfl
    | cons v vs =>
      unfold bestPerformance
      rw [hv]
      constructor
      · intro h
        exact absurd h (by simp)
      · intro hall
        have hvmem : v ∈ validRecords l := hv ▸ List.mem_cons_self ..
        obtain ⟨hvl, hvs⟩ := mem_validRecords.mp hvmem
        rw [hall v hvl] at hvs
        simp at hvs
  · intro l r h
    cases hv : validRecords l with
    | nil =>
      unfold bestPerformance at h
      rw [hv] at h
      exact absurd h (by simp)
    | cons v vs =>
      unfold bestPerformance at h
      rw [hv] at h
      obtain rfl := Option.some.inj h
      obtain ⟨hmem, -, hall⟩ := foldl_best_spec vs v
      have hmem2 := hv ▸ hmem
      obtain ⟨hrl, hrs⟩ := mem_validRecords.mp hmem2
      obtain ⟨q, hq⟩ := Option.isSome_iff_exists.mp hrs
      refine ⟨hrl, q, hq, ?_⟩
      intro r2 hr2 q2 hq2
      have hr2v : r2 ∈ validRecords l := mem_validRecords.mpr ⟨hr2, by simp [hq2]⟩
      rw [hv] at hr2v
      have hgetD : ∀ (x : Record) (qx : ℚ), time_s x = some qx → (time_s x).getD 0 = qx := by
        intro x qx hx
        rw [hx]
        rfl
      rcases List.mem_cons.mp hr2v with rfl | hr2vs
      · have := (foldl_best_spec vs r2).2.1
        rw [hgetD _ _ hq, hgetD _ _ hq2] at this
        exact this
      · have := hall r2 hr2vs
        rw [hgetD _ _ hq, hgetD _ _ hq2] at this
        exact this

/-- Witness for C5: with a DQ record and a `"7"`-second record, the
selected best is the valid record, minimal among valid times. -/
theorem C5_best_performance_witness :
    (⟨none, none, "A", none, some "7", none, "E"⟩ : Record) ∈
      [(⟨none, none, "A", none, some "DQ", none, "E"⟩ : Record),
        ⟨none, none, "A", none, some "7", none, "E"⟩] ∧
    ∃ q, time_s (⟨none, none, "A", none, some "7", none, "E"⟩ : Record) = some q ∧
      ∀ r2 ∈ [(⟨none, none, "A", none, some "DQ", none, "E"⟩ : Record),
          ⟨none, none, "A", none, some "7", none, "E"⟩],
        ∀ q2, time_s r2 = some q2 → q ≤ q2 :=
  C5_best_performance.2
    [⟨none, none, "A", none, some "DQ", none, "E"⟩, ⟨none, none, "A", none, some "7", none, "E"⟩]
    ⟨none, none, "A", none, some "7", none, "E"⟩ (by decide)

/-- C6: the summary statistics are defined exactly when at least two
records carry a non-null time; they then report the minimum, maximum and
mean of the non-null times, and the "total improvement" equals max minus
min.  With zero or one valid time, nothing beyond the count is shown. -/
theorem C6_summary_stats :
    (∀ l : List Record, summaryStats l = none ↔ (validTimes l).length ≤ 1) ∧
    (∀ (l : List Record) (mn mx av im : ℚ), summaryStats l = some (mn, mx, av, im) →
      2 ≤ (validTimes l).length ∧
      mn ∈ validTimes l ∧ (∀ t ∈ validTimes l, mn ≤ t) ∧
      mx ∈ validTimes l ∧ (∀ t ∈ validTimes l, t ≤ mx) ∧
      av = (validTimes l).sum / ((validTimes l).length : ℚ) ∧
      im = mx - mn) := by
  constructor
  · intro l
    unfold summaryStats
    cases hv : validTimes l with
    | nil => simp
    | cons q qs =>
      cases qs with
      | nil => simp
      | cons q2 qs2 => simp
  · intro l mn mx av im h
    unfold summaryStats at h
    cases hv : validTimes l with
    | nil =>
      rw [hv] at h
      exact absurd h (by simp)
    | cons q qs =>
      rw [hv] at h
      cases qs with
      | nil => exact absurd h (by simp)
      | cons q2 qs2 =>
        have hinj := Option.some.inj h
        obtain ⟨h1, h2, h3, h4⟩ : (q2 :: qs2).foldl min q = mn ∧
            (q2 :: qs2).foldl max q = mx ∧
            (q :: q2 :: qs2).sum / ((q :: q2 :: qs2).length : ℚ) = av ∧
            (q2 :: qs2).foldl max q - (q2 :: qs2).foldl min q = im := by
          simpa [Prod.ext_iff] using hinj
        refine ⟨by simp, ?_, ?_, ?_, ?_, ?_, ?_⟩
        · rw [← h1]
          exact foldl_min_mem ..
        · intro t ht
          rw [← h1]
          exact foldl_min_le _ _ t ht
        · rw [← h2]
          exact foldl_max_mem ..
        · intro t ht
          rw [← h2]
          exact foldl_max_ge _ _ t ht
        · exact h3.symm
        · rw [← h4, ← h1, ← h2]

/-- Witness for C6: the Ann Lee scenario — times `1:05.00`, `DQ`,
`1:00.00` give two valid times with min 60 s, max 65 s, mean 62.5 s and
improvement 5 s. -/
theorem C6_summary_stats_witness :
    2 ≤ (validTimes
        [(⟨none, none, "Ann Lee", none, some "1:05.00", none, "Freestyle"⟩ : Record),
          ⟨none, none, "Ann Lee", none, some "DQ", none, "Freestyle"⟩,
          ⟨none, none, "Ann Lee", none, some "1:00.00", none, "Freestyle"⟩]).length ∧
    (60 : ℚ) ∈ validTimes
        [(⟨none, none, "Ann Lee", none, some "1:05.00", none, "Freestyle"⟩ : Record),
          ⟨none, none, "Ann Lee", none, some "DQ", none, "Freestyle"⟩,
          ⟨none, none, "Ann Lee", none, some "1:00.00", none, "Freestyle"⟩] ∧
    (∀ t ∈ validTimes
        [(⟨none, none, "Ann Lee", none, some "1:05.00", none, "Freestyle"⟩ : Record),
          ⟨none, none, "Ann Lee", none, some "DQ", none, "Freestyle"⟩,
          ⟨none, none, "Ann Lee", none, some "1:00.00", none, "Freestyle"⟩], (60 : ℚ) ≤ t) ∧
    (65 : ℚ) ∈ validTimes
        [(⟨none, none, "Ann Lee", none, some "1:05.00", none, "Freestyle"⟩ : Record),
          ⟨none, none, "Ann Lee", none, some "DQ", none, "Freestyle"⟩,
          ⟨none, none, "Ann Lee", none, some "1:00.00", none, "Freestyle"⟩] ∧
    (∀ t ∈ validTimes
        [(⟨none, none, "Ann Lee", none, some "1:05.00", none, "Freestyle"⟩ : Record),
          ⟨none, none, "Ann Lee", none, some "DQ", none, "Freestyle"⟩,
          ⟨none, none, "Ann Lee", none, some "1:00.00", none, "Freestyle"⟩], t ≤ (65 : ℚ)) ∧
    (125 / 2 : ℚ) = (validTimes
        [(⟨none, none, "Ann Lee", none, some "1:05.00", none, "Freestyle"⟩ : Record),
          ⟨none, none, "Ann Lee", none, some "DQ", none, "Freestyle"⟩,
          ⟨none, none, "Ann Lee", none, some "1:00.00", none, "Freestyle"⟩]).sum /
        ((validTimes
          [(⟨none, none, "Ann Lee", none, some "1:05.00", none, "Freestyle"⟩ : Record),
            ⟨none, none, "Ann Lee", none, some "DQ", none, "Freestyle"⟩,
            ⟨none, none, "Ann Lee", none, some "1:00.00", none, "Freestyle"⟩]).length : ℚ) ∧
    (5 : ℚ) = 65 - 60 := by
  have hvt : validTimes
      [(⟨none, none, "Ann Lee", none, some "1:05.00", none, "Freestyle"⟩ : Record),
        ⟨none, none, "Ann Lee", none, some "DQ", none, "Freestyle"⟩,
        ⟨none, none, "Ann Lee", none, some "1:00.00", none, "Freestyle"⟩] = [65, 60] := by
    unfold validTimes time_s
    rw [List.filterMap_cons, List.filterMap_cons, List.filterMap_cons]
    rw [show parse_time_to_seconds
        ((⟨none, none, "Ann Lee", none, some "1:05.00", none, "Freestyle"⟩ : Record).timeRaw)
        = some 65 from parse_one_oh_five]
    rw [show parse_time_to_seconds
        ((⟨none, none, "Ann Lee", none, some "DQ", none, "Freestyle"⟩ : Record).timeRaw)
        = none from by decide]
    rw [show parse_time_to_seconds
        ((⟨none, none, "Ann Lee", none, some "1:00.00", none, "Freestyle"⟩ : Record).timeRaw)
        = some 60 from parse_one_minute]
    rfl
  have hstats := C6_summary_stats.2
    [(⟨none, none, "Ann Lee", none, some "1:05.00", none, "Freestyle"⟩ : Record),
      ⟨none, none, "Ann Lee", none, some "DQ", none, "Freestyle"⟩,
      ⟨none, none, "Ann Lee", none, some "1:00.00", none, "Freestyle"⟩]
    60 65 (125 / 2) 5
    (by
      unfold summaryStats
      rw [hvt]
      have hmin : min (65 : ℚ) 60 = 60 := by norm_num
      have hmax : max (65 : ℚ) 60 = 65 := by norm_num
      simp only [List.foldl_cons, List.foldl_nil, hmin, hmax]
      norm_num)
  exact ⟨hstats.1, hstats.2.1, hstats.2.2.1, hstats.2.2.2.1, hstats.2.2.2.2.1,
    hstats.2.2.2.2.2.1, by norm_num⟩

theorem mem_insertStr {x y : String} : ∀ {ys : List String},
    x ∈ insertStr y ys ↔ x = y ∨ x ∈ ys := by
  intro ys
  induction ys with
  | nil => simp [insertStr]
  | cons z zs ih =>
    unfold insertStr
    by_cases h : lexLt z.data y.data = true
    · rw [if_pos h]
      simp only [List.mem_cons, ih]
      tauto
    · rw [if_neg h]
      simp only [List.mem_cons]

theorem mem_sortStrings {x : String} : ∀ {xs : List String},
    x ∈ sortStrings xs ↔ x ∈ xs := by
  intro xs
  induction xs with
  | nil => simp [sortStrings]
  | cons y ys ih =>
    unfold sortStrings
    rw [mem_insertStr, ih]
    simp

/-- C4, counterexample: the claim says `Event_Count` counts *all* records
of the group, non-finishing ones included, but the pandas aggregation
`("Time", "count")` counts the non-null entries of the raw `Time` column:
a group consisting of one record whose `Time` cell is missing has one
record yet `Event_Count = 0`. -/
theorem C4_event_comparison_counterexample :
    eventComparison [(⟨none, none, "A", none, none, none, "25 Yard Freestyle"⟩ : Record)] =
      [(⟨"25 Yard Freestyle", none, 0, none⟩ : CompRow)] ∧
    (groupOf [(⟨none, none, "A", none, none, none, "25 Yard Freestyle"⟩ : Record)]
      "25 Yard Freestyle").length = 1 ∧
    (0 : ℕ) ≠ 1 := by
  refine ⟨?_, by decide, by decide⟩
  decide

/-- C4, amended: the per-event-type comparison has one row per event
type occurring in the set; each row reports the minimum non-null
`Time_s` of its group (`none` when the group has no valid time), the
count of the group's records with a *non-null raw time* (which includes
non-finishing markers such as `DQ`, but not records whose time cell is
missing), and the minimum of the numeric coercions of `rank` — records
whose rank fails the coercion are silently excluded, never causing
failure (`none` when no rank is numeric). -/
theorem C4_event_comparison_amended :
    (∀ (l : List Record) (r : Record), r ∈ l →
      ∃ row ∈ eventComparison l, row.eventType = r.eventType) ∧
    (∀ (l : List Record) (row : CompRow), row ∈ eventComparison l →
      row.eventCount = (groupOf l row.eventType).countP (fun r => r.timeRaw.isSome) ∧
      (row.bestTime = none ↔ ∀ r ∈ groupOf l row.eventType, time_s r = none) ∧
      (∀ b, row.bestTime = some b →
        (∃ r ∈ groupOf l row.eventType, time_s r = some b) ∧
        ∀ r ∈ groupOf l row.eventType, ∀ q, time_s r = some q → b ≤ q) ∧
      (row.bestRank = none ↔ ∀ r ∈ groupOf l row.eventType, rankNum r = none) ∧
      (∀ b, row.bestRank = some b →
        (∃ r ∈ groupOf l row.eventType, rankNum r = some b) ∧
        ∀ r ∈ groupOf l row.eventType, ∀ q, rankNum r = some q → b ≤ q)) := by
  constructor
  · intro l r hr
    have het : r.eventType ∈ eventTypes l := by
      unfold eventTypes
      rw [mem_sortStrings, List.mem_dedup]
      exact List.mem_map.mpr ⟨r, hr, rfl⟩
    refine ⟨_, List.mem_map.mpr ⟨r.eventType, het, rfl⟩, rfl⟩
  · intro l row hrow
    obtain ⟨et, -, rfl⟩ := List.mem_map.mp hrow
    refine ⟨rfl, ?_, ?_, ?_, ?_⟩
    · show listMin (validTimes (groupOf l et)) = none ↔ _
      rw [listMin_none_iff, validTimes_nil_iff]
    · intro b hb
      obtain ⟨hmem, hle⟩ := listMin_some hb
      obtain ⟨r, hr, hrb⟩ := mem_validTimes.mp hmem
      refine ⟨⟨r, hr, hrb⟩, ?_⟩
      intro r2 hr2 q hq
      exact hle q (mem_validTimes.mpr ⟨r2, hr2, hq⟩)
    · show listMin ((groupOf l et).filterMap rankNum) = none ↔ _
      rw [listMin_none_iff, List.filterMap_eq_nil_iff]
    · intro b hb
      obtain ⟨hmem, hle⟩ := listMin_some hb
      obtain ⟨r, hr, hrb⟩ := List.mem_filterMap.mp hmem
      refine ⟨⟨r, hr, hrb⟩, ?_⟩
      intro r2 hr2 q hq
      exact hle q (List.mem_filterMap.mpr ⟨r2, hr2, hq⟩)

/-- Witness for C4 on the one-record group with a missing time cell. -/
theorem C4_event_comparison_amended_witness :
    (∃ row ∈ eventComparison
        [(⟨none, none, "A", none, none, none, "25 Yard Freestyle"⟩ : Record)],
      row.eventType =
        (⟨none, none, "A", none, none, none, "25 Yard Freestyle"⟩ : Record).eventType) ∧
    (⟨"25 Yard Freestyle", none, 0, none⟩ : CompRow).eventCount =
      (groupOf [(⟨none, none, "A", none, none, none, "25 Yard Freestyle"⟩ : Record)]
          "25 Yard Freestyle").countP (fun r => r.timeRaw.isSome) :=
  ⟨C4_event_comparison_amended.1
      [⟨none, none, "A", none, none, none, "25 Yard Freestyle"⟩]
      ⟨none, none, "A", none, none, none, "25 Yard Freestyle"⟩ (List.mem_cons_self ..),
    (C4_event_comparison_amended.2
        [⟨none, none, "A", none, none, none, "25 Yard Freestyle"⟩]
        ⟨"25 Yard Freestyle", none, 0, none⟩ (by decide)).1⟩

end Swim
